import Mathlib

/-!
Shallow embedding of `src/binance_fetcher/binance_fetcher.py` (a candlestick
cache/fetch module) and proofs about its behaviour.

Modelling conventions:
* Timestamps are epoch milliseconds, modelled as `Int` (the source converts
  `pd.Timestamp` values to integer epoch milliseconds before use, and the
  pandas `DatetimeIndex` operations used — `date_range`, `difference`,
  comparisons, `asfreq` — are arithmetic on that grid).
* Price/volume cells are opaque data for every property proved here; they are
  modelled as `Int`.  The source parses them with `pd.to_numeric` from the
  JSON payload; no claim computes with them, only equality matters.
* Python strings are modelled as `List Char` so that every string operation
  used by the source (`in`, `str.replace`, `int(...)`) is kernel-computable.
* Fallible code returns `Option`/`Except`; the network is an oracle function
  from the page-request cursor to an optional page (`none` = non-200 reply).
* The page loop of `_download_candlestick_data` is given explicit fuel; the
  source loop's termination depends on the remote server, so theorems about
  it quantify over the fuel or hypothesise that the loop terminated.
-/

namespace BinanceFetcher

/-- One OHLCV row of the cached/fetched series: the `timestamp` index plus
the `open, high, low, close, volume` columns of the source's DataFrames. -/
structure Candle where
  ts : Int
  op : Int
  hi : Int
  lo : Int
  cl : Int
  vol : Int
  deriving DecidableEq, Repr

/-- The value columns of a row, i.e. what `DataFrame.drop_duplicates()`
compares: `open, high, low, close, volume` — the index (`ts`) is *not*
part of the comparison. -/
def vals (r : Candle) : Int × Int × Int × Int × Int :=
  (r.op, r.hi, r.lo, r.cl, r.vol)

/-! ## `_timeframe_to_pandas_freq`

```python
def _timeframe_to_pandas_freq(tf_str):
    if 'm' in tf_str:
        return f"{int(tf_str.replace('m', ''))}min"
    if 'h' in tf_str:
        return tf_str
    return None
```
`'m' in tf_str` is membership, `tf_str.replace('m','')` deletes every `'m'`,
`int(...)` parses an optionally signed, whitespace-surrounded digit string and
raises `ValueError` otherwise.  The four possible outcomes are modelled by
`TfOut`. -/

/-- Python `'c' in s`. -/
def pyContains (s : List Char) (c : Char) : Bool :=
  s.contains c

/-- Python `s.replace(c, '')`: delete every occurrence of `c`. -/
def pyRemoveAll (s : List Char) (c : Char) : List Char :=
  s.filter (fun x => x ≠ c)

/-- Accumulate a decimal digit string into a `Nat`. -/
def digitsToNat (cs : List Char) : Nat :=
  cs.foldl (fun n c => 10 * n + (c.toNat - 48)) 0

/-- Python `int(str)`: optional surrounding whitespace, optional sign, then a
nonempty run of decimal digits; anything else raises `ValueError` (`none`).
(Underscore separators and non-ASCII digits, which Python also accepts, do
not occur in any input considered here and are not modelled.) -/
def pyIntOfString (s : List Char) : Option Int :=
  let t := ((s.dropWhile Char.isWhitespace).reverse.dropWhile Char.isWhitespace).reverse
  match t with
  | [] => none
  | '+' :: rest =>
    if rest ≠ [] ∧ rest.all Char.isDigit then some (digitsToNat rest) else none
  | '-' :: rest =>
    if rest ≠ [] ∧ rest.all Char.isDigit then some (-(digitsToNat rest : Int)) else none
  | _ =>
    if t.all Char.isDigit then some (digitsToNat t) else none

/-- Result of `_timeframe_to_pandas_freq`:
`freqMin n` models the return value `f"{n}min"`, `freqRaw s` the branch that
returns `tf_str` unchanged, `pyNone` the final `return None`, and
`valueError` the `ValueError` escaping from `int(...)`. -/
inductive TfOut where
  | freqMin (n : Int)
  | freqRaw (s : List Char)
  | pyNone
  | valueError
  deriving DecidableEq, Repr

/-- Embedding of `_timeframe_to_pandas_freq` (source lines 12–18). -/
def _timeframe_to_pandas_freq (tf_str : List Char) : TfOut :=
  if pyContains tf_str 'm' then
    match pyIntOfString (pyRemoveAll tf_str 'm') with
    | some n => .freqMin n
    | none => .valueError
  else if pyContains tf_str 'h' then .freqRaw tf_str
  else .pyNone

/-- The step duration, in milliseconds, that pandas assigns to a frequency
produced by `_timeframe_to_pandas_freq` ("`n`min" is `n` minutes; a raw label
is parsed by pandas' offset parser, of which we model the hour case "`N`h";
anything else, including `None`, has no step).  This is only used to state
what the mapped frequencies *denote*. -/
def freqStepMs : TfOut → Option Int
  | .freqMin n => some (n * 60000)
  | .freqRaw s =>
    if s.getLast? == some 'h' && !s.dropLast.isEmpty && s.dropLast.all Char.isDigit then
      some ((digitsToNat s.dropLast : Int) * 3600000)
    else none
  | .pyNone => none
  | .valueError => none

/-- A label of the exact shape `"<N>u"` for a unit character `u`: a nonempty
digit string followed by `u` (the shape the specification says is the only
accepted one). -/
def isUnitLabel (u : Char) (s : List Char) : Bool :=
  s.getLast? == some u && !s.dropLast.isEmpty && s.dropLast.all Char.isDigit

/-- Claim C8, counterexample: the claim says the timeframe-to-step mapping
"succeeds exactly for minute-multiple labels `<N>m` and hour labels `<N>h`",
but the source's hour branch (`if 'h' in tf_str: return tf_str`) accepts the
bare label "h", which is of neither shape, and succeeds on it (returning the
label itself as the frequency). -/
theorem timeframe_freq_accepts_bare_h :
    _timeframe_to_pandas_freq "h".toList = TfOut.freqRaw "h".toList ∧
    isUnitLabel 'm' "h".toList = false ∧
    isUnitLabel 'h' "h".toList = false := by
  decide

/-- Claim C8, amended: for labels containing `'m'`, the mapping succeeds iff
deleting every `'m'` leaves a Python-parsable integer `n` and then denotes
`n` minutes (so `"1mm"`, `"7 m"`, `"-5m"` also succeed, and a non-integer
residue raises `ValueError` instead of the claimed `UnsupportedTimeframe`);
otherwise any label containing `'h'` is returned verbatim (so bare `"h"` or
`"abch"` also succeed); every other label yields Python `None` (the failure
indicator, not an explicit error).  The claim's concrete instances do hold:
`"7m"` denotes 7 minutes, `"4h"` denotes 4 hours, `"1d"` is unsupported. -/
theorem timeframe_freq_mapping (s : List Char) (n : Int) :
    (pyContains s 'm' = true → pyIntOfString (pyRemoveAll s 'm') = some n →
      _timeframe_to_pandas_freq s = .freqMin n) ∧
    (pyContains s 'm' = true → pyIntOfString (pyRemoveAll s 'm') = none →
      _timeframe_to_pandas_freq s = .valueError) ∧
    (pyContains s 'm' = false → pyContains s 'h' = true →
      _timeframe_to_pandas_freq s = .freqRaw s) ∧
    (pyContains s 'm' = false → pyContains s 'h' = false →
      _timeframe_to_pandas_freq s = .pyNone) ∧
    _timeframe_to_pandas_freq "7m".toList = .freqMin 7 ∧
    freqStepMs (.freqMin 7) = some 420000 ∧
    _timeframe_to_pandas_freq "4h".toList = .freqRaw "4h".toList ∧
    freqStepMs (.freqRaw "4h".toList) = some 14400000 ∧
    _timeframe_to_pandas_freq "1d".toList = .pyNone := by
  refine ⟨?_, ?_, ?_, ?_, by decide, by decide, by decide, by decide, by decide⟩
  · intro hm hint
    simp [_timeframe_to_pandas_freq, hm, hint]
  · intro hm hint
    simp [_timeframe_to_pandas_freq, hm, hint]
  · intro hm hh
    simp [_timeframe_to_pandas_freq, hm, hh]
  · intro hm hh
    simp [_timeframe_to_pandas_freq, hm, hh]

/-- Witness for `timeframe_freq_mapping` at the concrete label "3m". -/
theorem timeframe_freq_mapping_witness :
    _timeframe_to_pandas_freq "3m".toList = TfOut.freqMin 3 :=
  (timeframe_freq_mapping "3m".toList 3).1 (by decide) (by decide)

/-! ## `_download_candlestick_data`

```python
while True:
    url = f"...klines?...&startTime={current_fetch_start}&limit=1000"
    response = requests.get(url)
    if response.status_code == 200:
        data = response.json()
        if not data:
            break
        new_candles = [candle for candle in data if candle[0] <= end_ms]
        all_candles.extend(new_candles)
        if not new_candles or data[-1][0] > end_ms:
            break
        current_fetch_start = new_candles[-1][0] + 1
        progress.update(...); time.sleep(0.2)
    else:
        return None
```
The network is an oracle from the `startTime` cursor to the decoded page
(`none` = any non-200 status).  A raw kline record is consumed only through
`candle[0]` (open time) and `candle[:6]` (timestamp plus the five value
columns), so a page record is modelled directly as a `Candle`.  The progress
bar and the 200 ms sleep have no effect on the data and are not modelled. -/

/-- Timestamp of the last row of a list (0 if empty; only used on lists the
source has already checked to be nonempty, where it is `data[-1][0]` /
`new_candles[-1][0]`). -/
def lastTs (l : List Candle) : Int :=
  (l.getLast?.map Candle.ts).getD 0

/-- Outcome of the page loop: `fail` when some request got a non-200 reply
(source: `return None` from inside the loop), `done acc` when the loop broke
out normally with accumulated list `acc` (source: `all_candles`). -/
inductive LoopOut where
  | fail
  | done (candles : List Candle)
  deriving DecidableEq, Repr

/-- `new_candles = [candle for candle in data if candle[0] <= end_ms]`:
the page truncated to records whose open time does not exceed the end
bound. -/
def truncPage (endMs : Int) (data : List Candle) : List Candle :=
  data.filter (fun c => c.ts ≤ endMs)

/-- Embedding of the page loop of `_download_candlestick_data` (source lines
48–67), with explicit fuel; `none` means the fuel ran out before the loop
terminated. -/
def downloadLoop (api : Int → Option (List Candle)) (endMs : Int) :
    Nat → Int → List Candle → Option LoopOut
  | 0, _, _ => none
  | fuel + 1, cur, acc =>
    match api cur with
    | none => some .fail
    | some data =>
      if data.isEmpty then some (.done acc)
      else if (truncPage endMs data).isEmpty || decide (endMs < lastTs data) then
        some (.done (acc ++ truncPage endMs data))
      else
        downloadLoop api endMs fuel
          (lastTs (truncPage endMs data) + 1) (acc ++ truncPage endMs data)

/-- `pd.date_range(start=a, end=b, freq=step)` on the millisecond scale:
`a, a + step, a + 2*step, …` up to the last point `≤ b` (empty when
`b < a`).  Meaningful for `0 < step`. -/
def gridList (a b step : Int) : List Int :=
  if b < a then []
  else (List.range (((b - a) / step).toNat + 1)).map
    (fun k : Nat => a + step * (k : Int))

/-- The row of `rows` indexed by timestamp `t`, if any (first match). -/
def findRowAt (rows : List Candle) (t : Int) : Option Candle :=
  rows.find? (fun r => r.ts = t)

/-- The last row of `rows` whose timestamp is `≤ t`: for an ascending index
this is pandas' "last valid observation at or before `t`" used by
forward-fill. -/
def lastLE (rows : List Candle) (t : Int) : Option Candle :=
  (rows.filter (fun r => r.ts ≤ t)).getLast?

/-- `new_df.asfreq(freq, method='ffill')` (source line 79): reindex the frame
onto the grid running from its *first* index entry to its *last* index entry
at the given step; a grid slot that is an existing index entry keeps its row,
any other slot is filled with a copy of the most recent earlier row (all five
value columns, volume included).  Rows of the original frame whose timestamp
is not on the anchored grid are dropped.  (pandas raises on a duplicated
index; properties are proved for strictly ascending input.) -/
def asfreqFfill (step : Int) (rows : List Candle) : List Candle :=
  match rows.head? with
  | none => []
  | some first =>
    (gridList first.ts (lastTs rows) step).map (fun t =>
      match findRowAt rows t with
      | some r => r
      | none =>
        match lastLE rows t with
        | some r => { r with ts := t }
        | none => { ts := t, op := 0, hi := 0, lo := 0, cl := 0, vol := 0 })

/-- Embedding of `_download_candlestick_data` (source lines 20–81): run the
page loop from `startMs`; a transport failure returns `None`; a loop that
accepted no candles falls through the `if all_candles:` guard and *also*
returns `None` implicitly; otherwise the accepted candles are forward-filled
onto the frequency grid.  The outer `Option` is the fuel bound of the loop,
the inner `Option` is the function's own `None`-or-DataFrame result. -/
def _download_candlestick_data (api : Int → Option (List Candle))
    (startMs endMs step : Int) (fuel : Nat) : Option (Option (List Candle)) :=
  match downloadLoop api endMs fuel startMs [] with
  | none => none
  | some .fail => some none
  | some (.done candles) =>
    some (if candles.isEmpty then none else some (asfreqFfill step candles))

/-- The timestamps (index) of a list of rows. -/
def tsOf (rows : List Candle) : List Int :=
  rows.map Candle.ts

/-- Rows in non-decreasing timestamp order. -/
def ascTs : List Candle → Bool
  | [] => true
  | [_] => true
  | a :: b :: t => decide (a.ts ≤ b.ts) && ascTs (b :: t)

/-- Rows in strictly increasing timestamp order (a well-formed series). -/
def strictAscTs : List Candle → Bool
  | [] => true
  | [_] => true
  | a :: b :: t => decide (a.ts < b.ts) && strictAscTs (b :: t)

theorem ascTs_cons_cons {a b : Candle} {t : List Candle} :
    ascTs (a :: b :: t) = true ↔ a.ts ≤ b.ts ∧ ascTs (b :: t) = true := by
  simp [ascTs]

theorem lastTs_cons_cons {a b : Candle} {t : List Candle} :
    lastTs (a :: b :: t) = lastTs (b :: t) := by
  simp [lastTs, List.getLast?_cons_cons]

/-- Every timestamp of a non-decreasing list is bounded by the last one. -/
theorem ts_le_lastTs : ∀ {l : List Candle}, ascTs l = true →
    ∀ c ∈ l, c.ts ≤ lastTs l := by
  intro l
  induction l with
  | nil => intro _ c hc; cases hc
  | cons a t ih =>
    intro hsort c hc
    cases t with
    | nil =>
      rw [List.mem_singleton] at hc
      subst hc
      simp [lastTs]
    | cons b t2 =>
      rw [ascTs_cons_cons] at hsort
      rw [lastTs_cons_cons]
      rcases List.mem_cons.mp hc with hca | hct
      · subst hca
        exact le_trans hsort.1 (ih hsort.2 b (by simp))
      · exact ih hsort.2 c hct

/-- The last timestamp of a nonempty list is attained by a member. -/
theorem lastTs_mem : ∀ {l : List Candle}, l ≠ [] → ∃ c ∈ l, c.ts = lastTs l := by
  intro l
  induction l with
  | nil => intro h; exact absurd rfl h
  | cons a t ih =>
    intro _
    cases t with
    | nil => exact ⟨a, by simp, by simp [lastTs]⟩
    | cons b t2 =>
      obtain ⟨c, hc, hcl⟩ := ih (by simp)
      exact ⟨c, List.mem_cons_of_mem a hc, by rw [lastTs_cons_cons]; exact hcl⟩

/-- For an ascending page, "the last record's timestamp exceeds `m`" is the
same as "some record's timestamp exceeds `m`" — the bridge between the
source's `data[-1][0] > end_ms` check and the specification's "the page
contained a record whose timestamp exceeds `end`". -/
theorem lastTs_gt_iff {l : List Candle} (hne : l ≠ []) (hsort : ascTs l = true)
    (m : Int) : m < lastTs l ↔ ∃ c ∈ l, m < c.ts := by
  constructor
  · intro h
    obtain ⟨c, hc, hcl⟩ := lastTs_mem hne
    exact ⟨c, hc, by rw [hcl]; exact h⟩
  · rintro ⟨c, hc, hcm⟩
    exact lt_of_lt_of_le hcm (ts_le_lastTs hsort c hc)

/-- Claim C5: one iteration of the page loop, for a successful page `data`
returned at cursor `cur` whose records are in ascending timestamp order (as
Binance kline pages are).  (1) Truncation keeps exactly the records whose
open time is `≤ endMs`, discarding the rest.  The loop stops at this page
exactly when (a) the page is empty (accepting nothing), or (b) the page,
prior to truncation, contained a record whose timestamp exceeds `endMs`, or
(c) the truncation kept nothing; in each stopping case the accepted records
are `acc ++ truncPage endMs data`.  (2)–(5) spell out those cases, and (6):
otherwise the loop continues with the cursor advanced to one millisecond
past the last accepted record's timestamp. -/
theorem download_page_step (api : Int → Option (List Candle)) (endMs : Int)
    (fuel : Nat) (cur : Int) (acc data : List Candle)
    (hpage : api cur = some data) (hsort : ascTs data = true) :
    (∀ c ∈ data, (c ∈ truncPage endMs data ↔ c.ts ≤ endMs)) ∧
    (data = [] →
      downloadLoop api endMs (fuel + 1) cur acc = some (.done acc)) ∧
    (truncPage endMs data = [] →
      downloadLoop api endMs (fuel + 1) cur acc =
        some (.done (acc ++ truncPage endMs data))) ∧
    ((∃ c ∈ data, endMs < c.ts) →
      downloadLoop api endMs (fuel + 1) cur acc =
        some (.done (acc ++ truncPage endMs data))) ∧
    (data ≠ [] → truncPage endMs data ≠ [] → (∀ c ∈ data, c.ts ≤ endMs) →
      downloadLoop api endMs (fuel + 1) cur acc =
        downloadLoop api endMs fuel
          (lastTs (truncPage endMs data) + 1) (acc ++ truncPage endMs data)) := by
  refine ⟨?_, ?_, ?_, ?_, ?_⟩
  · intro c hc
    simp [truncPage, List.mem_filter, hc]
  · intro h
    subst h
    simp [downloadLoop, hpage]
  · intro h
    cases data with
    | nil => simp [downloadLoop, hpage, truncPage]
    | cons d ds => simp [downloadLoop, hpage, h]
  · rintro ⟨c, hc, hcgt⟩
    cases data with
    | nil => cases hc
    | cons d ds =>
      have hgt : endMs < lastTs (d :: ds) :=
        (lastTs_gt_iff (by simp) hsort endMs).mpr ⟨c, hc, hcgt⟩
      simp [downloadLoop, hpage, hgt]
  · intro hne htne hall
    cases data with
    | nil => exact absurd rfl hne
    | cons d ds =>
      have hngt : ¬ endMs < lastTs (d :: ds) := by
        intro hgt
        obtain ⟨c, hc, hcgt⟩ := (lastTs_gt_iff (by simp) hsort endMs).mp hgt
        exact absurd (hall c hc) (not_le.mpr hcgt)
      simp [downloadLoop, hpage, htne, hngt]

/-- Witness for `download_page_step`: a concrete two-record page at cursor 0
with end bound 100, whose second record exceeds the bound; the loop stops
and accepts only the first record. -/
def api5 : Int → Option (List Candle) := fun cur =>
  if cur = 0 then some [⟨0, 1, 1, 1, 1, 1⟩, ⟨200, 2, 2, 2, 2, 2⟩] else some []

theorem download_page_step_witness :
    downloadLoop api5 100 4 0 [] = some (.done [⟨0, 1, 1, 1, 1, 1⟩]) := by
  have h := (download_page_step api5 100 3 0 []
      [⟨0, 1, 1, 1, 1, 1⟩, ⟨200, 2, 2, 2, 2, 2⟩] rfl (by decide)).2.2.2.1
      ⟨⟨200, 2, 2, 2, 2, 2⟩, by decide, by decide⟩
  rw [h]
  decide

/-- An API that always answers 200 with an empty page. -/
def apiEmptyPage : Int → Option (List Candle) := fun _ => some []

/-- Claim C6, counterexample: against `apiEmptyPage` the loop terminates
without any transport failure having occurred (outcome `.done []`, not
`.fail`), yet `_download_candlestick_data` falls through its
`if all_candles:` guard and returns the same `None` failure indicator — the
empty-but-successful run is *not* distinct from failure. -/
theorem download_conflates_empty_success :
    downloadLoop apiEmptyPage 1000 5 0 [] = some (.done []) ∧
    _download_candlestick_data apiEmptyPage 0 1000 60000 5 = some none := by
  constructor
  · decide
  · decide

/-- Claim C6, amended: for every terminating run of the page loop,
`_download_candlestick_data` returns the failure indicator `None` iff the
loop either hit a non-success transport response or accepted zero candles;
in the transport-failure case no partially fetched rows are returned (the
result is `None`, carrying no rows).  An all-pages-successful run with zero
accepted candles is therefore indistinguishable from a transport failure. -/
theorem download_failure_indicator (api : Int → Option (List Candle))
    (startMs endMs step : Int) (fuel : Nat) (out : LoopOut)
    (hterm : downloadLoop api endMs fuel startMs [] = some out) :
    (_download_candlestick_data api startMs endMs step fuel = some none ↔
      out = .fail ∨ out = .done []) ∧
    (out = .fail →
      _download_candlestick_data api startMs endMs step fuel = some none) := by
  constructor
  · unfold _download_candlestick_data
    rw [hterm]
    cases out with
    | fail => simp
    | done c => cases c <;> simp
  · intro h
    subst h
    unfold _download_candlestick_data
    rw [hterm]

/-- Witness for `download_failure_indicator`: an API whose every request
fails with a non-200 status. -/
def apiFailAlways : Int → Option (List Candle) := fun _ => none

theorem download_failure_indicator_witness :
    _download_candlestick_data apiFailAlways 0 1000 60000 1 = some none :=
  (download_failure_indicator apiFailAlways 0 1000 60000 1 .fail rfl).2 rfl

/-! ## Forward-fill (claim C7) -/

theorem ascTs_iff_pairwise : ∀ {l : List Candle},
    ascTs l = true ↔ l.Pairwise (fun a b : Candle => a.ts ≤ b.ts) := by
  intro l
  induction l with
  | nil => simp [ascTs]
  | cons a t ih =>
    cases t with
    | nil => simp [ascTs]
    | cons b t2 =>
      rw [ascTs_cons_cons, ih, List.pairwise_cons, List.pairwise_cons,
        List.pairwise_cons]
      constructor
      · rintro ⟨hab, hb, hp⟩
        refine ⟨?_, hb, hp⟩
        intro c hc
        rcases List.mem_cons.mp hc with hcb | hct
        · subst hcb; exact hab
        · exact le_trans hab (hb c hct)
      · rintro ⟨ha, hb, hp⟩
        exact ⟨ha b (by simp), hb, hp⟩

theorem strictAscTs_iff_pairwise : ∀ {l : List Candle},
    strictAscTs l = true ↔ l.Pairwise (fun a b : Candle => a.ts < b.ts) := by
  intro l
  induction l with
  | nil => simp [strictAscTs]
  | cons a t ih =>
    cases t with
    | nil => simp [strictAscTs]
    | cons b t2 =>
      rw [strictAscTs, List.pairwise_cons, List.pairwise_cons] at *
      simp only [Bool.and_eq_true, decide_eq_true_eq, ih,
        List.pairwise_cons]
      constructor
      · rintro ⟨hab, hb, hp⟩
        refine ⟨?_, hb, hp⟩
        intro c hc
        rcases List.mem_cons.mp hc with hcb | hct
        · subst hcb; exact hab
        · exact lt_trans hab (hb c hct)
      · rintro ⟨ha, hb, hp⟩
        exact ⟨ha b (by simp), hb, hp⟩

theorem ascTs_of_strictAscTs {l : List Candle} (h : strictAscTs l = true) :
    ascTs l = true :=
  ascTs_iff_pairwise.mpr
    ((strictAscTs_iff_pairwise.mp h).imp (fun hab => le_of_lt hab))

/-- In a strictly ascending series, a timestamp determines its row. -/
theorem ts_injective : ∀ {l : List Candle}, strictAscTs l = true →
    ∀ a ∈ l, ∀ b ∈ l, a.ts = b.ts → a = b := by
  intro l
  induction l with
  | nil => intro _ a ha; cases ha
  | cons x t ih =>
    intro h a ha b hb heq
    have hp := strictAscTs_iff_pairwise.mp h
    rw [List.pairwise_cons] at hp
    have ht : strictAscTs t = true := strictAscTs_iff_pairwise.mpr hp.2
    rcases List.mem_cons.mp ha with hax | hat <;>
      rcases List.mem_cons.mp hb with hbx | hbt
    · subst hax; subst hbx; rfl
    · subst hax
      exact absurd heq (ne_of_lt (hp.1 b hbt))
    · subst hbx
      exact absurd heq.symm (ne_of_lt (hp.1 a hat))
    · exact ih ht a hat b hbt heq

theorem findRowAt_of_mem {l : List Candle} (h : strictAscTs l = true)
    {r : Candle} (hr : r ∈ l) : findRowAt l r.ts = some r := by
  cases hfind : findRowAt l r.ts with
  | none =>
    rw [findRowAt, List.find?_eq_none] at hfind
    exact absurd (by simp) (hfind r hr)
  | some r2 =>
    have hmem : r2 ∈ l := List.mem_of_find?_eq_some hfind
    have hts : r2.ts = r.ts := by
      have := List.find?_some hfind
      simpa using this
    rw [ts_injective h r2 hmem r hr hts]

/-- What `lastLE` finds in an ascending series is exactly the most recent
row at or before `t`: it is a member, its timestamp is `≤ t`, and no member
with timestamp `≤ t` is more recent. -/
theorem lastLE_spec {l : List Candle} (hsort : ascTs l = true) (t : Int)
    {r : Candle} (h : lastLE l t = some r) :
    r ∈ l ∧ r.ts ≤ t ∧ ∀ r2 ∈ l, r2.ts ≤ t → r2.ts ≤ r.ts := by
  have hmemf : r ∈ l.filter (fun x => decide (x.ts ≤ t)) :=
    List.mem_of_mem_getLast? h
  have hmem : r ∈ l := (List.mem_filter.mp hmemf).1
  have hle : r.ts ≤ t := by
    have := (List.mem_filter.mp hmemf).2
    simpa using this
  refine ⟨hmem, hle, ?_⟩
  intro r2 hr2 hr2le
  have hsf : ascTs (l.filter (fun x => decide (x.ts ≤ t))) = true :=
    ascTs_iff_pairwise.mpr
      ((ascTs_iff_pairwise.mp hsort).filter (fun x => decide (x.ts ≤ t)))
  have hr2f : r2 ∈ l.filter (fun x => decide (x.ts ≤ t)) :=
    List.mem_filter.mpr ⟨hr2, by simpa using hr2le⟩
  have hlast : lastTs (l.filter (fun x => decide (x.ts ≤ t))) = r.ts := by
    rw [lastLE] at h
    rw [lastTs, h]
    rfl
  have := ts_le_lastTs hsf r2 hr2f
  rwa [hlast] at this

theorem lastLE_isSome {l : List Candle} {c : Candle} (hc : c ∈ l) {t : Int}
    (hct : c.ts ≤ t) : ∃ r, lastLE l t = some r := by
  cases h : lastLE l t with
  | some r => exact ⟨r, rfl⟩
  | none =>
    rw [lastLE, List.getLast?_eq_none_iff] at h
    have : c ∈ l.filter (fun x => decide (x.ts ≤ t)) :=
      List.mem_filter.mpr ⟨hc, by simpa using hct⟩
    rw [h] at this
    cases this

/-- Membership in the millisecond grid `a, a+step, …, ≤ b`. -/
theorem mem_gridList {a b step t : Int} (hstep : 0 < step) :
    t ∈ gridList a b step ↔ ∃ k : Nat, t = a + step * k ∧ t ≤ b := by
  by_cases hab : b < a
  · rw [gridList, if_pos hab]
    constructor
    · intro h; cases h
    · rintro ⟨k, rfl, hle⟩
      have h0 : (0 : Int) ≤ step * k := by positivity
      linarith
  · rw [gridList, if_neg hab]
    push_neg at hab
    have hnum : (0 : Int) ≤ (b - a) / step :=
      Int.ediv_nonneg (by omega) hstep.le
    rw [List.mem_map]
    constructor
    · rintro ⟨k, hkr, rfl⟩
      rw [List.mem_range] at hkr
      refine ⟨k, rfl, ?_⟩
      have hkle : (k : Int) ≤ (b - a) / step := by
        have h1 : (k : Int) ≤ (((b - a) / step).toNat : Int) :=
          Int.ofNat_le.mpr (Nat.le_of_lt_succ hkr)
        rwa [Int.toNat_of_nonneg hnum] at h1
      have h2 : (k : Int) * step ≤ (b - a) / step * step :=
        mul_le_mul_of_nonneg_right hkle hstep.le
      have h3 : (b - a) / step * step ≤ b - a :=
        Int.ediv_mul_le (b - a) hstep.ne'
      have h4 : step * (k : Int) ≤ b - a := by
        rw [mul_comm]
        exact le_trans h2 h3
      linarith
    · rintro ⟨k, rfl, hle⟩
      refine ⟨k, ?_, rfl⟩
      rw [List.mem_range]
      have hkstep : (k : Int) * step ≤ b - a := by
        rw [mul_comm]
        linarith
      have h5 : (k : Int) ≤ (b - a) / step :=
        (Int.le_ediv_iff_mul_le hstep).mpr hkstep
      have h6 : (k : Int) < (((b - a) / step).toNat : Int) + 1 := by
        rw [Int.toNat_of_nonneg hnum]
        omega
      exact_mod_cast h6

/-- An API returning a single record at 60000 for the first page and
nothing afterwards. -/
def apiOneCandle : Int → Option (List Candle) := fun cur =>
  if cur = 0 then some [⟨60000, 1, 2, 3, 4, 5⟩] else some []

/-- Claim C7, counterexample: the claim says every grid timestamp of the
requested range `[start, end]` with no returned record is synthesized into
the result.  Request `[0, 120000]` at a 60000 ms step against
`apiOneCandle`: the grid of the requested range is `{0, 60000, 120000}`,
the timestamps 0 and 120000 carry no record, and the successful result
contains neither — `asfreq` only spans the range from the first to the last
fetched record. -/
theorem download_no_fill_outside_fetched_span :
    _download_candlestick_data apiOneCandle 0 120000 60000 5 =
      some (some [⟨60000, 1, 2, 3, 4, 5⟩]) ∧
    gridList 0 120000 60000 = [0, 60000, 120000] ∧
    (0 : Int) ∉ tsOf [⟨60000, 1, 2, 3, 4, 5⟩] ∧
    (120000 : Int) ∉ tsOf [⟨60000, 1, 2, 3, 4, 5⟩] := by
  refine ⟨by decide, by decide, by decide, by decide⟩

/-- Claim C7, amended: for every successful, terminating run whose accepted
records form a nonempty strictly ascending series, the result covers exactly
the grid anchored at the *first* accepted record's timestamp and ending at
the *last* accepted record's timestamp (not the full requested range): its
index is that grid; every accepted record sitting on the grid is kept; and
every grid slot with no record is synthesized by copying all five value
columns — OHLC and volume alike — of the most recent accepted record at or
before the slot, restamped to the slot's timestamp. -/
theorem download_ffill_spans_fetched_range (api : Int → Option (List Candle))
    (startMs endMs step : Int) (fuel : Nat) (candles : List Candle)
    (first : Candle)
    (hterm : downloadLoop api endMs fuel startMs [] = some (.done candles))
    (hhead : candles.head? = some first)
    (hsort : strictAscTs candles = true) (hstep : 0 < step) :
    _download_candlestick_data api startMs endMs step fuel =
      some (some (asfreqFfill step candles)) ∧
    tsOf (asfreqFfill step candles) =
      gridList first.ts (lastTs candles) step ∧
    (∀ r ∈ candles, r.ts ∈ gridList first.ts (lastTs candles) step →
      r ∈ asfreqFfill step candles) ∧
    (∀ t ∈ gridList first.ts (lastTs candles) step,
      (∀ r ∈ candles, r.ts ≠ t) →
      ∃ src ∈ candles, src.ts ≤ t ∧
        (∀ r ∈ candles, r.ts ≤ t → r.ts ≤ src.ts) ∧
        { src with ts := t } ∈ asfreqFfill step candles) := by
  have hne : candles ≠ [] := by
    intro h; rw [h] at hhead; cases hhead
  have hfirstmem : first ∈ candles := by
    cases candles with
    | nil => cases hhead
    | cons a t =>
      have : a = first := by simpa using hhead
      subst this; simp
  have hasfreq : asfreqFfill step candles =
      (gridList first.ts (lastTs candles) step).map (fun t =>
        match findRowAt candles t with
        | some r => r
        | none =>
          match lastLE candles t with
          | some r => { r with ts := t }
          | none => { ts := t, op := 0, hi := 0, lo := 0, cl := 0, vol := 0 }) := by
    rw [asfreqFfill, hhead]
  refine ⟨?_, ?_, ?_, ?_⟩
  · unfold _download_candlestick_data
    rw [hterm]
    cases candles with
    | nil => exact absurd rfl hne
    | cons a t => simp
  · rw [hasfreq, tsOf, List.map_map]
    refine Eq.trans (List.map_congr_left ?_) (List.map_id _)
    intro t _
    simp only [Function.comp_apply, id_eq]
    cases hf : findRowAt candles t with
    | some r =>
      have := List.find?_some hf
      simpa using this
    | none =>
      cases hl : lastLE candles t with
      | some r => rfl
      | none => rfl
  · intro r hr hrg
    rw [hasfreq]
    rw [List.mem_map]
    refine ⟨r.ts, hrg, ?_⟩
    rw [findRowAt_of_mem hsort hr]
  · intro t htg hnone
    have hfind : findRowAt candles t = none := by
      rw [findRowAt, List.find?_eq_none]
      intro r hr
      simpa using hnone r hr
    have hfirstle : first.ts ≤ t := by
      obtain ⟨k, rfl, -⟩ := (mem_gridList hstep).mp htg
      have : (0 : Int) ≤ step * k := by positivity
      omega
    obtain ⟨src, hsrc⟩ := lastLE_isSome hfirstmem hfirstle
    obtain ⟨hmem, hle, hmax⟩ := lastLE_spec (ascTs_of_strictAscTs hsort) t hsrc
    refine ⟨src, hmem, hle, hmax, ?_⟩
    rw [hasfreq, List.mem_map]
    refine ⟨t, htg, ?_⟩
    rw [hfind, hsrc]

/-- Witness for `download_ffill_spans_fetched_range`: an API returning
records at 0 and 120000 for a request ending at 120000; the loop accepts
both and the result is the forward-filled three-slot grid. -/
def apiTwoCandles : Int → Option (List Candle) := fun cur =>
  if cur = 0 then some [⟨0, 1, 1, 1, 1, 1⟩, ⟨120000, 2, 2, 2, 2, 2⟩]
  else some []

theorem download_ffill_spans_fetched_range_witness :
    _download_candlestick_data apiTwoCandles 0 120000 60000 5 =
      some (some (asfreqFfill 60000
        [⟨0, 1, 1, 1, 1, 1⟩, ⟨120000, 2, 2, 2, 2, 2⟩])) ∧
    asfreqFfill 60000 [⟨0, 1, 1, 1, 1, 1⟩, ⟨120000, 2, 2, 2, 2, 2⟩] =
      [⟨0, 1, 1, 1, 1, 1⟩, ⟨60000, 1, 1, 1, 1, 1⟩, ⟨120000, 2, 2, 2, 2, 2⟩] := by
  constructor
  · exact (download_ffill_spans_fetched_range apiTwoCandles 0 120000 60000 5
      [⟨0, 1, 1, 1, 1, 1⟩, ⟨120000, 2, 2, 2, 2, 2⟩] ⟨0, 1, 1, 1, 1, 1⟩
      (by decide) (by decide) (by decide) (by decide)).1
  · decide

/-! ## `fetch_candlestick_data`

```python
if cache_file.exists():
    main_cache = pd.read_parquet(cache_file)
    requested_data = main_cache[(main_cache.index >= start_time) & (main_cache.index <= end_time)]
    requested_range = pd.date_range(start=start_time, end=end_time, freq=..., tz='UTC')
    missing_timestamps = requested_range.difference(requested_data.index)
    if missing_timestamps.empty:
        return requested_data
    else:
        gaps = []
        if not missing_timestamps.empty:
            start_gap = missing_timestamps[0]; end_gap = missing_timestamps[0]
            for i in range(1, len(missing_timestamps)):
                if missing_timestamps[i] == end_gap + pd.Timedelta(freq=...):
                    end_gap = missing_timestamps[i]
                else:
                    gaps.append((start_gap, end_gap))
                    start_gap = missing_timestamps[i]; end_gap = missing_timestamps[i]
            gaps.append((start_gap, end_gap))
        for start_gap, end_gap in gaps:
            new_data = _download_candlestick_data(symbol, timeframe, start_gap, end_gap)
            if new_data is not None:
                main_cache = pd.concat([main_cache, new_data]).sort_index().drop_duplicates()
        main_cache.to_parquet(cache_file)
        return main_cache[(main_cache.index >= start_time) & (main_cache.index <= end_time)]
else:
    new_data = _download_candlestick_data(symbol, timeframe, start_time, end_time)
    if new_data is not None:
        new_data.to_parquet(cache_file); return new_data
    else:
        return pd.DataFrame()
```
The per-gap downloader is abstracted as `dl : Int → Int → Option (List
Candle)` (gap start and end in epoch ms, to the result of
`_download_candlestick_data` for that range); the cache file as
`Option (List Candle)`; the run's observable effects are recorded in
`RunResult`. -/

/-- `main_cache[(index >= start) & (index <= end)]`: the cached rows within
the inclusive window. -/
def sliceTs (rows : List Candle) (s e : Int) : List Candle :=
  rows.filter (fun r => s ≤ r.ts && r.ts ≤ e)

/-- `requested_range.difference(requested_data.index)`: the grid timestamps
with no present row, in ascending order (`DatetimeIndex.difference` returns
a sorted index, and here it filters the already-sorted grid). -/
def missingOf (grid presentTs : List Int) : List Int :=
  grid.filter (fun t => !presentTs.contains t)

/-- The exception escaping from `pd.Timedelta(freq=...)`; see
`pdTimedeltaFreqKw`. -/
inductive PyErr where
  | timedeltaKwError
  deriving DecidableEq, Repr

/-- Source line 128 evaluates `pd.Timedelta(freq=_timeframe_to_pandas_freq(timeframe))`.
`pandas.Timedelta.__new__` accepts a positional `value`, a `unit`, and only
the duration keywords `weeks, days, hours, minutes, seconds, milliseconds,
microseconds, nanoseconds`; every other keyword — `freq` included — makes it
raise ("cannot construct a Timedelta from the passed arguments, allowed
keywords are [...]"), and keyword values must be numeric, not strings, so a
string-valued `freq=` raises in every pandas release.  The construction
therefore never yields a step; it always raises. -/
def pdTimedeltaFreqKw (_freqStr : List Char) : Except PyErr Int :=
  .error .timedeltaKwError

/-- The gap-coalescing loop (source lines 125–134), given the current gap
`[sg, eg]` and the remaining missing timestamps.  Each iteration evaluates
`end_gap + pd.Timedelta(freq=...)`, so any iteration propagates the
`Timedelta` exception. -/
def gapLoop (freqStr : List Char) (sg eg : Int) :
    List Int → Except PyErr (List (Int × Int))
  | [] => .ok [(sg, eg)]
  | t :: ts =>
    match pdTimedeltaFreqKw freqStr with
    | .error e => .error e
    | .ok step =>
      if t = eg + step then gapLoop freqStr sg t ts
      else
        match gapLoop freqStr t t ts with
        | .error e => .error e
        | .ok rest => .ok ((sg, eg) :: rest)

/-- The gap detector of `fetch_candlestick_data` (source lines 122–134):
seed the first gap with the first missing timestamp and run the coalescing
loop over the rest. -/
def findGaps (freqStr : List Char) : List Int → Except PyErr (List (Int × Int))
  | [] => .ok []
  | m :: ms => gapLoop freqStr m m ms

/-- Stable insertion of a row into a timestamp-sorted list: the new row goes
after every existing row whose timestamp is `≤` its own. -/
def insertTs (x : Candle) : List Candle → List Candle
  | [] => [x]
  | y :: ys => if y.ts ≤ x.ts then y :: insertTs x ys else x :: y :: ys

/-- `DataFrame.sort_index()`: sort rows by timestamp.  Modelled as a stable
sort (rows with equal timestamps keep their relative order, cached rows
before newly fetched ones); pandas' default quicksort leaves the order of
index ties unspecified, and no property proved here depends on the order
within a tie. -/
def sortByTs (l : List Candle) : List Candle :=
  l.foldl (fun acc x => insertTs x acc) []

/-- Helper for `dropDupVals`: keep a row only if its value tuple was not
seen before. -/
def dropDupValsGo (seen : List (Int × Int × Int × Int × Int)) :
    List Candle → List Candle
  | [] => []
  | r :: rs =>
    if vals r ∈ seen then dropDupValsGo seen rs
    else r :: dropDupValsGo (vals r :: seen) rs

/-- `DataFrame.drop_duplicates()` with default arguments: drop every row
whose *column values* `(open, high, low, close, volume)` equal those of an
earlier row, keeping the first occurrence.  The index (the timestamp) is not
part of the comparison. -/
def dropDupVals (l : List Candle) : List Candle :=
  dropDupValsGo [] l

/-- `pd.concat([main_cache, new_data]).sort_index().drop_duplicates()`
(source line 139). -/
def mergeStep (cache newData : List Candle) : List Candle :=
  dropDupVals (sortByTs (cache ++ newData))

/-- The per-gap fetch-and-merge loop (source lines 136–139): fetch each gap;
a `None` result leaves the cache as is.  Also counts the downloader
invocations (each is at least one network request). -/
def runGaps (dl : Int → Int → Option (List Candle)) :
    List Candle → List (Int × Int) → List Candle × Nat
  | cache, [] => (cache, 0)
  | cache, (sg, eg) :: rest =>
    let cache2 := match dl sg eg with
      | some newData => mergeStep cache newData
      | none => cache
    let out := runGaps dl cache2 rest
    (out.1, out.2 + 1)

/-- Observable outcome of one `fetch_candlestick_data` run: the returned
rows, the cache file afterwards (`none` = no file), how many times the
downloader was invoked (0 = no network request), and whether the cache file
was written. -/
structure RunResult where
  ret : List Candle
  cacheAfter : Option (List Candle)
  downloads : Nat
  wrote : Bool
  deriving DecidableEq, Repr

/-- Embedding of `fetch_candlestick_data` (source lines 83–150).  `freqStr`
is the pandas frequency string `_timeframe_to_pandas_freq(timeframe)` passed
to `pd.Timedelta`, `step` the timeframe's grid step in ms (what
`pd.date_range` advances by), `cache` the cache file's contents if the file
exists, `s`/`e` the requested window in epoch ms.  An `.error` outcome is an
uncaught Python exception. -/
def fetch_candlestick_data (dl : Int → Int → Option (List Candle))
    (freqStr : List Char) (step : Int) (cache : Option (List Candle))
    (s e : Int) : Except PyErr RunResult :=
  match cache with
  | some main_cache =>
    let requested_data := sliceTs main_cache s e
    let missing := missingOf (gridList s e step) (tsOf requested_data)
    if missing.isEmpty then
      .ok ⟨requested_data, some main_cache, 0, false⟩
    else
      match findGaps freqStr missing with
      | .error err => .error err
      | .ok gaps =>
        let out := runGaps dl main_cache gaps
        .ok ⟨sliceTs out.1 s e, some out.1, out.2, true⟩
  | none =>
    match dl s e with
    | some newData => .ok ⟨newData, some newData, 1, true⟩
    | none => .ok ⟨[], none, 1, false⟩

/-- A downloader whose every invocation fails. -/
def dlNone : Int → Int → Option (List Candle) := fun _ _ => none

/-- Claim C1: the claim says the gap detector coalesces consecutive missing
timestamps and returns the ascending gap list.  The code cannot: as soon as
the missing-timestamp loop body runs (two or more missing timestamps), the
`pd.Timedelta(freq=...)` construction on source line 128 raises.  For the
hourly grid `{0, 60000, 120000}` with `{60000}` present — missing
`[0, 120000]`, expected gaps `[(0,0), (120000,120000)]` — the detector
raises instead; only a single missing timestamp (loop body never entered)
yields its one-point gap. -/
theorem gap_detector_raises_on_two_missing :
    findGaps "60min".toList [0, 120000] = .error .timedeltaKwError ∧
    findGaps "60min".toList [60000] = .ok [(60000, 60000)] :=
  ⟨rfl, rfl⟩

/-- Claim C4: the claim says that in a run with multiple gaps each gap is
fetched independently and a failure only omits that gap's rows.  No run ever
has multiple gaps: two or more gaps require at least two missing timestamps,
and then gap detection raises (see `gap_detector_raises_on_two_missing`)
before any fetch happens — here, a cache holding only 60000 of the grid
`{0, 60000, 120000}` makes the whole call raise instead of returning a
slice. -/
theorem fetch_multi_gap_run_raises :
    missingOf (gridList 0 120000 60000)
      (tsOf (sliceTs [⟨60000, 1, 1, 1, 1, 1⟩] 0 120000)) = [0, 120000] ∧
    fetch_candlestick_data dlNone "60min".toList 60000
      (some [⟨60000, 1, 1, 1, 1, 1⟩]) 0 120000 = .error .timedeltaKwError := by
  constructor
  · decide
  · rfl

/-- Claim C3: a full cache hit.  If every timestamp of the requested grid is
present among the cached rows inside `[s, e]`, the call returns exactly the
cached rows restricted to the inclusive window, invokes the downloader zero
times, does not write, and leaves the cache unchanged; consequently a second
identical request against the unchanged cache (with any downloader
behaviour `dlSecond`) again invokes the downloader zero times. -/
theorem fetch_full_cache_hit (dl dlSecond : Int → Int → Option (List Candle))
    (freqStr : List Char) (step : Int) (rows : List Candle) (s e : Int)
    (hfull : ∀ t ∈ gridList s e step, t ∈ tsOf (sliceTs rows s e)) :
    fetch_candlestick_data dl freqStr step (some rows) s e =
      .ok ⟨sliceTs rows s e, some rows, 0, false⟩ ∧
    fetch_candlestick_data dlSecond freqStr step (some rows) s e =
      .ok ⟨sliceTs rows s e, some rows, 0, false⟩ := by
  have hmiss : missingOf (gridList s e step) (tsOf (sliceTs rows s e)) = [] := by
    rw [missingOf, List.filter_eq_nil_iff]
    intro t ht
    simpa using hfull t ht
  constructor <;> simp [fetch_candlestick_data, hmiss]

/-- Witness for `fetch_full_cache_hit`: a two-row cache fully covering the
hourly window `[0, 60000]`. -/
def rowsHit : List Candle := [⟨0, 1, 1, 1, 1, 1⟩, ⟨60000, 1, 2, 3, 4, 5⟩]

theorem fetch_full_cache_hit_witness :
    fetch_candlestick_data dlNone "60min".toList 60000 (some rowsHit) 0 60000 =
      .ok ⟨rowsHit, some rowsHit, 0, false⟩ := by
  have h := (fetch_full_cache_hit dlNone dlNone "60min".toList 60000 rowsHit
    0 60000 (by decide)).1
  have hs : sliceTs rowsHit 0 60000 = rowsHit := by decide
  rw [hs] at h
  exact h

/-- A cache of one row at timestamp 0. -/
def cacheC2 : List Candle := [⟨0, 1, 1, 1, 1, 1⟩]

/-- A gap downloader whose fetch for the gap `[60000, 60000]` also returns
a row at the already-cached timestamp 0, with different values (the source
never filters fetched rows below the gap start, only above its end). -/
def dlC2 : Int → Int → Option (List Candle) := fun sg _ =>
  if sg = 60000 then some [⟨0, 2, 2, 2, 2, 2⟩, ⟨60000, 3, 3, 3, 3, 3⟩] else none

/-- Claim C2: the claim says the persisted merged series has no duplicate
timestamps, later fetched rows overwriting cached ones.  The merge
deduplicates by *value columns* only (`drop_duplicates()` ignores the
index), so the cached row and the fetched row sharing timestamp 0 but
differing in values both survive: the persisted cache and the returned
slice hold two rows at timestamp 0. -/
theorem fetch_merge_persists_duplicate_timestamps :
    fetch_candlestick_data dlC2 "60min".toList 60000 (some cacheC2) 0 60000 =
      .ok ⟨[⟨0, 1, 1, 1, 1, 1⟩, ⟨0, 2, 2, 2, 2, 2⟩, ⟨60000, 3, 3, 3, 3, 3⟩],
        some [⟨0, 1, 1, 1, 1, 1⟩, ⟨0, 2, 2, 2, 2, 2⟩, ⟨60000, 3, 3, 3, 3, 3⟩],
        1, true⟩ ∧
    ¬ (tsOf [⟨0, 1, 1, 1, 1, 1⟩, ⟨0, 2, 2, 2, 2, 2⟩,
        ⟨60000, 3, 3, 3, 3, 3⟩]).Nodup := by
  constructor
  · rfl
  · decide

/-- A cache of one row at timestamp 120000. -/
def cacheC10 : List Candle := [⟨120000, 1, 1, 1, 1, 1⟩]

/-- A gap downloader returning, for the gap `[60000, 60000]`, one row whose
five values coincide with those of the cached row at 120000 (a flat
market's forward-filled candle). -/
def dlC10 : Int → Int → Option (List Candle) := fun sg _ =>
  if sg = 60000 then some [⟨60000, 1, 1, 1, 1, 1⟩] else none

/-- Claim C10: the claim says merging never removes a cached timestamp.  But
`drop_duplicates()` compares value columns only and keeps the first
occurrence in index order: the successfully fetched row at 60000 with the
same five values as the cached row at 120000 makes the merge drop the
*cached* row — timestamp 120000 is present in the loaded cache and absent
from the persisted merged series. -/
theorem fetch_merge_drops_cached_timestamp :
    fetch_candlestick_data dlC10 "60min".toList 60000 (some cacheC10)
        60000 120000 =
      .ok ⟨[⟨60000, 1, 1, 1, 1, 1⟩], some [⟨60000, 1, 1, 1, 1, 1⟩], 1, true⟩ ∧
    (120000 : Int) ∈ tsOf cacheC10 ∧
    (120000 : Int) ∉ tsOf [⟨60000, 1, 1, 1, 1, 1⟩] := by
  refine ⟨rfl, by decide, by decide⟩

/-- Claim C9: with no cache file, a cache file is written iff the download
returns a series; on a `None` result the call returns the empty series,
writes nothing, and leaves no cache file (and on a successful download the
file holds exactly the downloaded series). -/
theorem fetch_cache_created_iff_download_succeeds
    (dl : Int → Int → Option (List Candle)) (freqStr : List Char)
    (step s e : Int) (r : RunResult)
    (hrun : fetch_candlestick_data dl freqStr step none s e = .ok r) :
    ((r.cacheAfter ≠ none ∧ r.wrote = true) ↔ ∃ rows, dl s e = some rows) ∧
    (dl s e = none → r = ⟨[], none, 1, false⟩) ∧
    (∀ rows, dl s e = some rows → r = ⟨rows, some rows, 1, true⟩) := by
  rw [fetch_candlestick_data] at hrun
  cases hdl : dl s e with
  | some rows =>
    rw [hdl] at hrun
    have hr : r = ⟨rows, some rows, 1, true⟩ := by
      cases hrun
      rfl
    subst hr
    refine ⟨?_, ?_, ?_⟩
    · simp
    · intro h
      exact Option.noConfusion h
    · intro rows2 h
      have heq : rows = rows2 := Option.some.inj h
      subst heq
      rfl
  | none =>
    rw [hdl] at hrun
    have hr : r = ⟨[], none, 1, false⟩ := by
      cases hrun
      rfl
    subst hr
    refine ⟨?_, fun _ => rfl, ?_⟩
    · simp
    · intro rows2 h
      exact Option.noConfusion h

/-- Witness for `fetch_cache_created_iff_download_succeeds`: a downloader
that returns one row, so the cache file is created. -/
def dlOneRow : Int → Int → Option (List Candle) :=
  fun _ _ => some [⟨0, 1, 1, 1, 1, 1⟩]

theorem fetch_cache_created_iff_download_succeeds_witness :
    (⟨[⟨0, 1, 1, 1, 1, 1⟩], some [⟨0, 1, 1, 1, 1, 1⟩], 1, true⟩
        : RunResult).cacheAfter ≠ none ∧
    (⟨[⟨0, 1, 1, 1, 1, 1⟩], some [⟨0, 1, 1, 1, 1, 1⟩], 1, true⟩
        : RunResult).wrote = true :=
  (fetch_cache_created_iff_download_succeeds dlOneRow "60min".toList 60000
    0 0 ⟨[⟨0, 1, 1, 1, 1, 1⟩], some [⟨0, 1, 1, 1, 1, 1⟩], 1, true⟩ rfl).1.mpr
    ⟨[⟨0, 1, 1, 1, 1, 1⟩], rfl⟩

/-! ## End-to-end composition

`fetch_candlestick_data` abstracts its per-gap downloader as `dl`; in the
source the downloader *is* `_download_candlestick_data`.  The following run
threads the two embeddings together on a concrete scenario: a cache holding
the row at 0 of the hourly grid `{0, 60000}`, so exactly 60000 is missing,
one single-point gap is detected, fetched through the page loop against a
concrete oracle, merged, and persisted. -/

/-- Page oracle for the end-to-end run: the page at cursor 60000 holds the
one candle, every other page is empty. -/
def apiEndToEnd : Int → Option (List Candle) := fun cur =>
  if cur = 60000 then some [⟨60000, 7, 8, 9, 10, 11⟩] else some []

/-- The source's per-gap downloader: `_download_candlestick_data` over
`apiEndToEnd` (with ample fuel), as a gap-range function. -/
def dlEndToEnd : Int → Int → Option (List Candle) := fun gs ge =>
  (_download_candlestick_data apiEndToEnd gs ge 60000 5).getD none

theorem fetch_end_to_end :
    dlEndToEnd 60000 60000 = some [⟨60000, 7, 8, 9, 10, 11⟩] ∧
    fetch_candlestick_data dlEndToEnd "60min".toList 60000
        (some [⟨0, 1, 2, 3, 4, 5⟩]) 0 60000 =
      .ok ⟨[⟨0, 1, 2, 3, 4, 5⟩, ⟨60000, 7, 8, 9, 10, 11⟩],
        some [⟨0, 1, 2, 3, 4, 5⟩, ⟨60000, 7, 8, 9, 10, 11⟩], 1, true⟩ :=
  ⟨rfl, rfl⟩

/-! ## The specification's gap detector

The specification (§4.3) describes the gap detector as the source's
coalescing loop with the timeframe's step duration — the value
`pd.Timedelta(freq=...)` was evidently meant to produce.  `findGapsSpec`
follows the specification's words; it differs from `findGaps` only in using
the step directly where the source's `pd.Timedelta` construction raises.
The theorems below establish that this algorithm has exactly the property
the specification asserts of `findGaps` (ascending, pairwise
non-overlapping, non-adjacent gaps covering exactly the missing grid
timestamps), i.e. that the specification's description is coherent and the
source's divergence from it is confined to the raising `Timedelta` call. -/

/-- Follows the spec's words: the coalescing loop over the remaining missing
timestamps, with the current gap `[sg, eg]` and the grid `step`. -/
def gapLoopSpec (step sg eg : Int) : List Int → List (Int × Int)
  | [] => [(sg, eg)]
  | t :: ts =>
    if t = eg + step then gapLoopSpec step sg t ts
    else (sg, eg) :: gapLoopSpec step t t ts

/-- Follows the spec's words: `findGaps(requestedGrid, present)` seeded with
the first missing timestamp. -/
def findGapsSpec (step : Int) : List Int → List (Int × Int)
  | [] => []
  | m :: ms => gapLoopSpec step m m ms

theorem gapLoopSpec_head_fst (step sg eg : Int) :
    ∀ ms : List Int,
      (gapLoopSpec step sg eg ms).head?.map Prod.fst = some sg := by
  intro ms
  induction ms generalizing sg eg with
  | nil => rfl
  | cons t ts ih =>
    rw [gapLoopSpec]
    by_cases ht : t = eg + step
    · rw [if_pos ht]
      exact ih sg t
    · rw [if_neg ht]
      rfl

/-- Loop invariant, separation half: if every remaining missing timestamp is
later than the current gap's end and step-aligned to it, the produced gaps
are well-formed (`start ≤ end`) and consecutive gaps are separated by more
than one step (non-overlapping and non-adjacent). -/
theorem gapLoopSpec_separated (step : Int) (hstep : 0 < step) :
    ∀ (ms : List Int) (sg eg : Int), sg ≤ eg →
      ms.Pairwise (· < ·) → (∀ x ∈ ms, eg < x) →
      (∀ x ∈ ms, step ∣ (x - eg)) →
      (∀ g ∈ gapLoopSpec step sg eg ms, g.1 ≤ g.2) ∧
      List.Chain' (fun g1 g2 => g1.2 + step < g2.1)
        (gapLoopSpec step sg eg ms) := by
  intro ms
  induction ms with
  | nil =>
    intro sg eg hse _ _ _
    constructor
    · intro g hg
      rw [List.mem_singleton.mp hg]
      exact hse
    · exact List.chain'_singleton _
  | cons t ts ih =>
    intro sg eg hse hpw hgt halign
    rw [List.pairwise_cons] at hpw
    have htgt : eg < t := hgt t (by simp)
    have hts_gt : ∀ x ∈ ts, t < x := hpw.1
    have hts_align : ∀ x ∈ ts, step ∣ (x - t) := by
      intro x hx
      have h1 : step ∣ (x - eg) := halign x (by simp [hx])
      have h2 : step ∣ (t - eg) := halign t (by simp)
      have h3 : x - t = (x - eg) - (t - eg) := by ring
      rw [h3]
      exact dvd_sub h1 h2
    rw [gapLoopSpec]
    by_cases ht : t = eg + step
    · rw [if_pos ht]
      exact ih sg t (le_trans hse (le_of_lt htgt)) hpw.2 hts_gt hts_align
    · rw [if_neg ht]
      have hsep : eg + step < t := by
        obtain ⟨d, hd⟩ := halign t (by simp)
        have hd1 : 1 ≤ d := by
          by_contra hcon
          push_neg at hcon
          have : d ≤ 0 := by omega
          have : t - eg ≤ 0 := by
            rw [hd]
            exact mul_nonpos_of_nonneg_of_nonpos hstep.le this
          omega
        have hd2 : d ≠ 1 := by
          intro hcon
          rw [hcon, mul_one] at hd
          exact ht (by omega)
        have hd3 : 2 ≤ d := by omega
        have h2 : step * 2 ≤ step * d := mul_le_mul_of_nonneg_left hd3 hstep.le
        have : 2 * step ≤ t - eg := by
          rw [hd]
          linarith
        omega
      have hrest := ih t t (le_refl t) hpw.2 hts_gt hts_align
      refine ⟨?_, ?_⟩
      · intro g hg
        rcases List.mem_cons.mp hg with hgh | hgt2
        · rw [hgh]
          exact hse
        · exact hrest.1 g hgt2
      · rw [List.chain'_cons']
        refine ⟨?_, hrest.2⟩
        intro g2 hg2
        have hhead := gapLoopSpec_head_fst step t t ts
        rw [hg2] at hhead
        have : g2.1 = t := by
          simpa using hhead
        rw [this]
        exact hsep

/-- Loop invariant, coverage half: a step-aligned instant is covered by some
produced gap iff it lies in the current gap `[sg, eg]` or is one of the
remaining missing timestamps. -/
theorem gapLoopSpec_covers (step : Int) (hstep : 0 < step) :
    ∀ (ms : List Int) (sg eg : Int), sg ≤ eg →
      ms.Pairwise (· < ·) → (∀ x ∈ ms, eg < x) →
      (∀ x ∈ ms, step ∣ (x - eg)) →
      ∀ x : Int, step ∣ (x - eg) →
        ((∃ g ∈ gapLoopSpec step sg eg ms, g.1 ≤ x ∧ x ≤ g.2) ↔
          (sg ≤ x ∧ x ≤ eg) ∨ x ∈ ms) := by
  intro ms
  induction ms with
  | nil =>
    intro sg eg _ _ _ _ x _
    simp [gapLoopSpec]
  | cons t ts ih =>
    intro sg eg hse hpw hgt halign x hx
    rw [List.pairwise_cons] at hpw
    have htgt : eg < t := hgt t (by simp)
    have hts_gt : ∀ y ∈ ts, t < y := hpw.1
    have htalign : step ∣ (t - eg) := halign t (by simp)
    have hts_align : ∀ y ∈ ts, step ∣ (y - t) := by
      intro y hy
      have h1 : step ∣ (y - eg) := halign y (by simp [hy])
      have h3 : y - t = (y - eg) - (t - eg) := by ring
      rw [h3]
      exact dvd_sub h1 htalign
    have hxt : step ∣ (x - t) := by
      have h3 : x - t = (x - eg) - (t - eg) := by ring
      rw [h3]
      exact dvd_sub hx htalign
    rw [gapLoopSpec]
    by_cases ht : t = eg + step
    · rw [if_pos ht]
      rw [ih sg t (le_trans hse htgt.le) hpw.2 hts_gt hts_align x hxt]
      constructor
      · rintro (⟨hsx, hxe⟩ | hxts)
        · by_cases hxeg : x ≤ eg
          · exact Or.inl ⟨hsx, hxeg⟩
          · push_neg at hxeg
            obtain ⟨d, hd⟩ := hx
            have hd1 : 1 ≤ d := by
              by_contra hcon
              push_neg at hcon
              have hd0 : d ≤ 0 := by omega
              have : x - eg ≤ 0 := by
                rw [hd]
                exact mul_nonpos_of_nonneg_of_nonpos hstep.le hd0
              omega
            have hd2 : d ≤ 1 := by
              by_contra hcon
              push_neg at hcon
              have h2d : 2 ≤ d := by omega
              have h2 : step * 2 ≤ step * d :=
                mul_le_mul_of_nonneg_left h2d hstep.le
              have : 2 * step ≤ x - eg := by
                rw [hd]
                linarith
              omega
            have hxt2 : x = t := by
              have : d = 1 := le_antisymm hd2 hd1
              rw [this, mul_one] at hd
              omega
            exact Or.inr (by simp [hxt2])
        · exact Or.inr (by simp [hxts])
      · rintro (⟨hsx, hxe⟩ | hxtts)
        · exact Or.inl ⟨hsx, by omega⟩
        · rcases List.mem_cons.mp hxtts with hxt2 | hxts
          · exact Or.inl ⟨by omega, le_of_eq hxt2⟩
          · exact Or.inr hxts
    · rw [if_neg ht]
      have hcov := ih t t (le_refl t) hpw.2 hts_gt hts_align x hxt
      constructor
      · rintro ⟨g, hg, hg1, hg2⟩
        rcases List.mem_cons.mp hg with hgh | hgt2
        · rw [hgh] at hg1 hg2
          exact Or.inl ⟨hg1, hg2⟩
        · rcases hcov.mp ⟨g, hgt2, hg1, hg2⟩ with ⟨h1, h2⟩ | h3
          · exact Or.inr (by simp [le_antisymm h2 h1])
          · exact Or.inr (by simp [h3])
      · rintro (⟨hsx, hxe⟩ | hxtts)
        · exact ⟨(sg, eg), by simp, hsx, hxe⟩
        · rcases List.mem_cons.mp hxtts with hxt2 | hxts
          · obtain ⟨g, hg, hgx⟩ := hcov.mpr (Or.inl ⟨le_of_eq hxt2.symm, le_of_eq hxt2⟩)
            exact ⟨g, List.mem_cons_of_mem _ hg, hgx⟩
          · obtain ⟨g, hg, hgx⟩ := hcov.mpr (Or.inr hxts)
            exact ⟨g, List.mem_cons_of_mem _ hg, hgx⟩

theorem gridList_pairwise {a b step : Int} (hstep : 0 < step) :
    (gridList a b step).Pairwise (· < ·) := by
  rw [gridList]
  by_cases hab : b < a
  · rw [if_pos hab]
    exact List.Pairwise.nil
  · rw [if_neg hab]
    have hr : (List.range (((b - a) / step).toNat + 1)).Pairwise (· < ·) :=
      List.pairwise_lt_range _
    refine hr.map (fun k : Nat => a + step * (k : Int)) ?_
    intro k1 k2 hk
    show a + step * (k1 : Int) < a + step * (k2 : Int)
    have hc : (k1 : Int) < (k2 : Int) := by exact_mod_cast hk
    have := mul_lt_mul_of_pos_left hc hstep
    omega

theorem gridList_aligned {a b step x y : Int} (hx : x ∈ gridList a b step)
    (hy : y ∈ gridList a b step) (hstep : 0 < step) : step ∣ (y - x) := by
  obtain ⟨kx, hkx, -⟩ := (mem_gridList hstep).mp hx
  obtain ⟨ky, hky, -⟩ := (mem_gridList hstep).mp hy
  refine ⟨(ky : Int) - (kx : Int), ?_⟩
  rw [hkx, hky]
  ring

/-- The specification's testable property of the gap detector (claim C1's
statement), proved of the spec-side algorithm: on the missing timestamps of
a requested grid it returns gaps that are well-formed, in ascending order,
pairwise non-overlapping and non-adjacent (consecutive gaps separated by
more than one step), and a grid timestamp is missing iff it is covered by
some returned gap. -/
theorem findGapsSpec_correct (step : Int) (hstep : 0 < step) (s e : Int)
    (present : List Int) :
    (∀ g ∈ findGapsSpec step (missingOf (gridList s e step) present),
      g.1 ≤ g.2) ∧
    List.Chain' (fun g1 g2 => g1.2 + step < g2.1)
      (findGapsSpec step (missingOf (gridList s e step) present)) ∧
    (∀ x ∈ gridList s e step,
      (x ∈ missingOf (gridList s e step) present ↔
        ∃ g ∈ findGapsSpec step (missingOf (gridList s e step) present),
          g.1 ≤ x ∧ x ≤ g.2)) := by
  have hsub : ∀ y ∈ missingOf (gridList s e step) present,
      y ∈ gridList s e step := by
    intro y hy
    exact (List.mem_filter.mp hy).1
  have hpw : (missingOf (gridList s e step) present).Pairwise (· < ·) :=
    (gridList_pairwise hstep).filter _
  cases hmiss : missingOf (gridList s e step) present with
  | nil =>
    refine ⟨by simp [findGapsSpec], by simp [findGapsSpec], ?_⟩
    intro x _
    simp [findGapsSpec]
  | cons m ms =>
    rw [hmiss] at hpw hsub
    rw [List.pairwise_cons] at hpw
    have hmgrid : m ∈ gridList s e step := hsub m (by simp)
    have halign : ∀ y ∈ ms, step ∣ (y - m) := by
      intro y hy
      exact gridList_aligned hmgrid (hsub y (by simp [hy])) hstep
    refine ⟨?_, ?_, ?_⟩
    · exact (gapLoopSpec_separated step hstep ms m m (le_refl m)
        hpw.2 hpw.1 halign).1
    · exact (gapLoopSpec_separated step hstep ms m m (le_refl m)
        hpw.2 hpw.1 halign).2
    · intro x hx
      have hxalign : step ∣ (x - m) := gridList_aligned hmgrid hx hstep
      rw [findGapsSpec]
      rw [gapLoopSpec_covers step hstep ms m m (le_refl m)
        hpw.2 hpw.1 halign x hxalign]
      constructor
      · intro hxmem
        rcases List.mem_cons.mp hxmem with hxm | hxms
        · exact Or.inl ⟨le_of_eq hxm.symm, le_of_eq hxm⟩
        · exact Or.inr hxms
      · rintro (⟨h1, h2⟩ | h3)
        · rw [le_antisymm h2 h1]
          simp
        · simp [h3]

/-! ## Properties of the merge step and the per-gap loop

These support the true parts of the merge-related claims: the merged series
is always sorted ascending; every gap is attempted (a failed fetch does not
abort the loop); and the merged series contains no synthetic rows — every
timestamp comes from the cache or from some successfully fetched gap. -/

theorem mem_insertTs {x y : Candle} :
    ∀ {l : List Candle}, (y ∈ insertTs x l ↔ y = x ∨ y ∈ l) := by
  intro l
  induction l with
  | nil => simp [insertTs]
  | cons z zs ih =>
    rw [insertTs]
    by_cases h : z.ts ≤ x.ts
    · rw [if_pos h]
      rw [List.mem_cons, ih, List.mem_cons]
      tauto
    · rw [if_neg h]
      rw [List.mem_cons, List.mem_cons]

theorem insertTs_pairwise {x : Candle} :
    ∀ {l : List Candle}, l.Pairwise (fun a b : Candle => a.ts ≤ b.ts) →
      (insertTs x l).Pairwise (fun a b : Candle => a.ts ≤ b.ts) := by
  intro l
  induction l with
  | nil =>
    intro _
    simp [insertTs]
  | cons z zs ih =>
    intro hp
    rw [List.pairwise_cons] at hp
    rw [insertTs]
    by_cases h : z.ts ≤ x.ts
    · rw [if_pos h]
      rw [List.pairwise_cons]
      refine ⟨?_, ih hp.2⟩
      intro b hb
      rcases mem_insertTs.mp hb with hbx | hbz
      · rw [hbx]
        exact h
      · exact hp.1 b hbz
    · rw [if_neg h]
      push_neg at h
      rw [List.pairwise_cons]
      refine ⟨?_, List.pairwise_cons.mpr hp⟩
      intro b hb
      rcases List.mem_cons.mp hb with hbz | hbzs
      · rw [hbz]
        exact h.le
      · exact le_trans h.le (hp.1 b hbzs)

theorem sortByTs_fold_pairwise :
    ∀ (l acc : List Candle),
      acc.Pairwise (fun a b : Candle => a.ts ≤ b.ts) →
      (l.foldl (fun acc x => insertTs x acc) acc).Pairwise
        (fun a b : Candle => a.ts ≤ b.ts) := by
  intro l
  induction l with
  | nil => intro acc h; exact h
  | cons x xs ih =>
    intro acc h
    exact ih _ (insertTs_pairwise h)

/-- `sort_index()` output is sorted ascending by timestamp. -/
theorem sortByTs_sorted (l : List Candle) : ascTs (sortByTs l) = true :=
  ascTs_iff_pairwise.mpr (sortByTs_fold_pairwise l [] (by simp))

theorem mem_sortByTs_fold :
    ∀ (l acc : List Candle) (y : Candle),
      (y ∈ l.foldl (fun acc x => insertTs x acc) acc ↔ y ∈ acc ∨ y ∈ l) := by
  intro l
  induction l with
  | nil => simp
  | cons x xs ih =>
    intro acc y
    rw [List.foldl_cons, ih, mem_insertTs, List.mem_cons]
    tauto

theorem mem_sortByTs {l : List Candle} {y : Candle} :
    y ∈ sortByTs l ↔ y ∈ l := by
  rw [sortByTs, mem_sortByTs_fold]
  simp

theorem dropDupValsGo_sublist :
    ∀ (l : List Candle) (seen : List (Int × Int × Int × Int × Int)),
      List.Sublist (dropDupValsGo seen l) l := by
  intro l
  induction l with
  | nil => intro seen; simp [dropDupValsGo]
  | cons r rs ih =>
    intro seen
    rw [dropDupValsGo]
    by_cases h : vals r ∈ seen
    · rw [if_pos h]
      exact (ih seen).cons r
    · rw [if_neg h]
      exact (ih _).cons₂ r

theorem mem_of_mem_mergeStep {cache newData : List Candle} {r : Candle}
    (h : r ∈ mergeStep cache newData) : r ∈ cache ∨ r ∈ newData := by
  rw [mergeStep, dropDupVals] at h
  have h2 : r ∈ sortByTs (cache ++ newData) :=
    (dropDupValsGo_sublist _ []).subset h
  rw [mem_sortByTs] at h2
  exact List.mem_append.mp h2

/-- The merged series the reconciler persists is always sorted ascending by
timestamp (the part of claim C2 the code does satisfy). -/
theorem mergeStep_sorted (cache newData : List Candle) :
    ascTs (mergeStep cache newData) = true :=
  ascTs_iff_pairwise.mpr
    ((ascTs_iff_pairwise.mp (sortByTs_sorted (cache ++ newData))).sublist
      (dropDupValsGo_sublist _ []))

/-- Every gap is attempted: the per-gap loop invokes the downloader once per
gap, whatever each invocation returns — a failed fetch does not abort the
remaining gaps. -/
theorem runGaps_attempts_all (dl : Int → Int → Option (List Candle)) :
    ∀ (gaps : List (Int × Int)) (cache : List Candle),
      (runGaps dl cache gaps).2 = gaps.length := by
  intro gaps
  induction gaps with
  | nil => intro cache; rfl
  | cons g gs ih =>
    intro cache
    cases g with
    | mk sg eg =>
      rw [runGaps]
      simp only [List.length_cons]
      rw [ih]

/-- No synthetic rows: every timestamp of the merged series the per-gap loop
produces comes from the loaded cache or from some gap whose fetch
succeeded — a failed gap contributes nothing. -/
theorem runGaps_no_synthetic_rows (dl : Int → Int → Option (List Candle)) :
    ∀ (gaps : List (Int × Int)) (cache : List Candle) (t : Int),
      t ∈ tsOf (runGaps dl cache gaps).1 →
      t ∈ tsOf cache ∨
        ∃ g ∈ gaps, ∃ rows, dl g.1 g.2 = some rows ∧ t ∈ tsOf rows := by
  intro gaps
  induction gaps with
  | nil =>
    intro cache t ht
    exact Or.inl ht
  | cons g gs ih =>
    intro cache t ht
    cases g with
    | mk sg eg =>
      rw [runGaps] at ht
      cases hdl : dl sg eg with
      | none =>
        rw [hdl] at ht
        rcases ih cache t ht with h1 | ⟨g2, hg2, rows, hrows, htr⟩
        · exact Or.inl h1
        · exact Or.inr ⟨g2, List.mem_cons_of_mem _ hg2, rows, hrows, htr⟩
      | some rows =>
        rw [hdl] at ht
        rcases ih (mergeStep cache rows) t ht with h1 | ⟨g2, hg2, rows2, hrows2, htr⟩
        · rw [tsOf, List.mem_map] at h1
          obtain ⟨r, hr, hrt⟩ := h1
          rcases mem_of_mem_mergeStep hr with hrc | hrn
          · exact Or.inl (by rw [tsOf, List.mem_map]; exact ⟨r, hrc, hrt⟩)
          · refine Or.inr ⟨(sg, eg), by simp, rows, hdl, ?_⟩
            rw [tsOf, List.mem_map]
            exact ⟨r, hrn, hrt⟩
        · exact Or.inr ⟨g2, List.mem_cons_of_mem _ hg2, rows2, hrows2, htr⟩

end BinanceFetcher
